import Mathlib

/-!
Shallow embedding of `src/spline.h` (arduino-splines): a 1-d spline
evaluator over parallel sample arrays with a cyclic-scan segment search.

Modelling conventions:
* the C template scalar `T` is embedded as `ℚ` (exact arithmetic; the
  basis functions use only the integer powers `pow(t,2)`, `pow(t,3)`);
* the borrowed C arrays `T*` are embedded as total functions `ℕ → ℚ`
  (an out-of-bounds read yields an unconstrained value, as in C it
  yields an unspecified one — no theorem below depends on such cells);
* the C ints `_degree`, `_length`, `_prev_point` become `ℤ` resp. `ℕ`
  (all are non-negative in every reachable state);
* the search loop `for(i = 0; i < _length; i++)` is embedded by
  structural recursion on the remaining iteration count (`fuel`),
  started at `_length`;
* the two no-return paths of the C code — the loop falling through and
  the `switch(_degree)` having no matching case — return `none`; a
  defined returned value is `some v`.  `value` also returns the
  post-state, whose only mutable field is `prev_point`.
-/

namespace ArduinoSplines

/-- State of the C++ object `Spline<T>`: the three borrowed arrays
`_x`, `_y`, `_m`, the mode `_degree`, the sample count `_length`, and
the search cursor `_prev_point`. -/
structure Spline where
  x : ℕ → ℚ
  y : ℕ → ℚ
  m : ℕ → ℚ
  degree : ℤ
  length : ℕ
  prev_point : ℕ

/-- `Spline<double>::hermite_00`: `(2*pow(t,3)) - (3*pow(t,2)) + 1`. -/
def hermite_00 (t : ℚ) : ℚ := 2 * t ^ 3 - 3 * t ^ 2 + 1

/-- `Spline<double>::hermite_10`: `pow(t,3) - (2*pow(t,2)) + t`. -/
def hermite_10 (t : ℚ) : ℚ := t ^ 3 - 2 * t ^ 2 + t

/-- `Spline<double>::hermite_01`: `(3*pow(t,2)) - (2*pow(t,3))`. -/
def hermite_01 (t : ℚ) : ℚ := 3 * t ^ 2 - 2 * t ^ 3

/-- `Spline<double>::hermite_11`: `pow(t,3) - pow(t,2)`. -/
def hermite_11 (t : ℚ) : ℚ := t ^ 3 - t ^ 2

/-- `Spline<T>::hermite`. -/
def hermite (t p0 p1 m0 m1 x0 x1 : ℚ) : ℚ :=
  (hermite_00 t * p0) + (hermite_10 t * (x1 - x0) * m0) + (hermite_01 t * p1) +
    (hermite_11 t * (x1 - x0) * m1)

/-- `Spline<T>::catmull_tangent`.  The source reads `_x[i-1]`; it is
only ever called with `i ≥ 1`, where ℕ subtraction agrees with C. -/
def Spline.catmull_tangent (s : Spline) (i : ℕ) : ℚ :=
  if s.x (i + 1) = s.x (i - 1) then 0
  else (s.y (i + 1) - s.y (i - 1)) / (s.x (i + 1) - s.x (i - 1))

/-- `Spline<T>::calc` (renamed: `calc` is a Lean keyword).  The
`switch(_degree)` has cases `0`, `1`, `Hermite = 10`, `Catmull = 11`
and no default: with any other degree the C function falls off the end
without returning, embedded here as `none`. -/
def Spline.calcVal (s : Spline) (q : ℚ) (i : ℕ) : Option ℚ :=
  if s.degree = 0 then some (s.y i)
  else if s.degree = 1 then
    if s.x i = s.x (i + 1) then some (s.y i)
    else some (s.y i + (s.y (i + 1) - s.y i) * (q - s.x i) / (s.x (i + 1) - s.x i))
  else if s.degree = 10 then
    some (hermite ((q - s.x i) / (s.x (i + 1) - s.x i)) (s.y i) (s.y (i + 1))
      (s.m i) (s.m (i + 1)) (s.x i) (s.x (i + 1)))
  else if s.degree = 11 then
    if i = 0 then some (s.y 1)
    else if i = s.length - 2 then some (s.y (s.length - 2))
    else
      some (hermite ((q - s.x i) / (s.x (i + 1) - s.x i)) (s.y i) (s.y (i + 1))
        (if i = 0 then 0 else s.catmull_tangent i)
        (if i = s.length - 1 then 0 else s.catmull_tangent (i + 1))
        (s.x i) (s.x (i + 1)))
  else none

/-- The search loop of `Spline<T>::value`: iteration with loop counter
`i` and `fuel` iterations left examines `index = (i + _prev_point) %
_length`; an exact match returns `_y[index]`, a containing segment
returns `calc(x, index)`, both after setting `_prev_point = index`;
exhausting the loop falls through (no value, state unchanged). -/
def Spline.searchAux (s : Spline) (q : ℚ) : ℕ → ℕ → Option ℚ × Spline
  | _, 0 => (none, s)
  | i, fuel + 1 =>
    if s.x ((i + s.prev_point) % s.length) = q then
      (some (s.y ((i + s.prev_point) % s.length)),
        { s with prev_point := (i + s.prev_point) % s.length })
    else if s.x ((i + s.prev_point) % s.length) < q ∧
        q < s.x ((i + s.prev_point) % s.length + 1) then
      (s.calcVal q ((i + s.prev_point) % s.length),
        { s with prev_point := (i + s.prev_point) % s.length })
    else s.searchAux q (i + 1) fuel

/-- `Spline<T>::value`: flat extrapolation below `_x[0]` and above
`_x[_length-1]`, otherwise the cyclic segment search. -/
def Spline.value (s : Spline) (q : ℚ) : Option ℚ × Spline :=
  if s.x 0 > q then (some (s.y 0), s)
  else if s.x (s.length - 1) < q then (some (s.y (s.length - 1)), s)
  else s.searchAux q 0 s.length

/-- `Spline<T>::setPoints(x, y, numPoints)`. -/
def Spline.setPoints (s : Spline) (xa ya : ℕ → ℚ) (numPoints : ℕ) : Spline :=
  { s with x := xa, y := ya, length := numPoints }

/-- `Spline<T>::setPoints(x, y, m, numPoints)`. -/
def Spline.setPointsWithTangents (s : Spline) (xa ya ma : ℕ → ℚ) (numPoints : ℕ) : Spline :=
  { s with x := xa, y := ya, m := ma, length := numPoints }

/-- `Spline<T>::setDegree`. -/
def Spline.setDegree (s : Spline) (degree : ℤ) : Spline :=
  { s with degree := degree }

/-- The caller contract of the spec: the first `length` sample x's are
monotonically non-decreasing. -/
abbrev Spline.SortedX (s : Spline) : Prop :=
  ∀ i < s.length - 1, s.x i ≤ s.x (i + 1)

/-- Strictly increasing sample x's (no duplicate sample abscissae). -/
abbrev Spline.StrictX (s : Spline) : Prop :=
  ∀ i < s.length - 1, s.x i < s.x (i + 1)

/-- Index `j` stops the search at query `q`: exact match or containing
segment — exactly the two return conditions of the loop body. -/
abbrev Spline.MatchAt (s : Spline) (q : ℚ) (j : ℕ) : Prop :=
  s.x j = q ∨ (s.x j < q ∧ q < s.x (j + 1))

/-! Concrete tables used as witnesses and counterexamples. -/

/-- Two samples sharing the abscissa 0 with different ordinates,
cursor at 1 (a reachable cursor state), Linear mode. -/
def dupSpline : Spline :=
  { x := fun _ => 0, y := fun n => if n = 0 then 3 else 7, m := fun _ => 0,
    degree := 1, length := 2, prev_point := 1 }

/-- Same duplicate-x table with the initial cursor 0. -/
def dupSpline0 : Spline := { dupSpline with prev_point := 0 }

/-- Strictly increasing four-point table in Linear mode, cursor 2. -/
def quadSpline : Spline :=
  { x := fun n => if n = 0 then 0 else if n = 1 then 2 else if n = 2 then 4 else 6,
    y := fun n => if n = 0 then 0 else if n = 1 then 1 else if n = 2 then 4 else 9,
    m := fun _ => 0, degree := 1, length := 4, prev_point := 2 }

/-- Two-point table in CatmullRom mode: its only segment is both the
first one and the `i = length - 2` one. -/
def catSpline2 : Spline :=
  { x := fun n => if n = 0 then 0 else 2, y := fun n => if n = 0 then 5 else 7,
    m := fun _ => 0, degree := 11, length := 2, prev_point := 0 }

/-- Four-point table in CatmullRom mode. -/
def catSpline4 : Spline := { quadSpline with degree := 11 }

/-- Four-point table in Hermite mode with unit tangents. -/
def hermSpline : Spline := { quadSpline with degree := 10, m := fun _ => 1 }

/-! Helper lemmas about the embedded operations. -/

/-- Non-decreasing adjacent x's give a monotone sample table. -/
lemma sortedX_mono {s : Spline} (hs : s.SortedX) :
    ∀ i j, i ≤ j → j < s.length → s.x i ≤ s.x j := by
  intro i j
  induction j with
  | zero =>
    intro hij _
    have hi : i = 0 := Nat.le_zero.mp hij
    rw [hi]
  | succ j ih =>
    intro hij hj
    by_cases h : i = j + 1
    · rw [h]
    · have hij' : i ≤ j := by omega
      exact le_trans (ih hij' (by omega)) (hs j (by omega))

/-- Strictly increasing adjacent x's give a strictly monotone table. -/
lemma strictX_mono {s : Spline} (hs : s.StrictX) :
    ∀ i j, i < j → j < s.length → s.x i < s.x j := by
  intro i j
  induction j with
  | zero => intro hij _; exact absurd hij (Nat.not_lt_zero i)
  | succ j ih =>
    intro hij hj
    by_cases h : i = j
    · rw [h]; exact hs j (by omega)
    · exact lt_trans (ih (by omega) (by omega)) (hs j (by omega))

lemma strictX_sortedX {s : Spline} (hs : s.StrictX) : s.SortedX :=
  fun i hi => le_of_lt (hs i hi)

lemma strictX_inj {s : Spline} (hs : s.StrictX) {i j : ℕ}
    (hi : i < s.length) (hj : j < s.length) (hxy : s.x i = s.x j) : i = j := by
  rcases lt_trichotomy i j with h | h | h
  · exact absurd hxy (ne_of_lt (strictX_mono hs i j h hj))
  · exact h
  · exact absurd hxy.symm (ne_of_lt (strictX_mono hs j i h hi))

/-- Shape of the loop result: either the fuel ran out with the state
unchanged and no value, or the loop stopped at some index `j`, set the
cursor to `j`, and returned `_y[j]` (exact match) or `calc(q, j)`
(containing segment). -/
lemma searchAux_cases (s : Spline) (q : ℚ) :
    ∀ fuel i, s.searchAux q i fuel = (none, s) ∨
      ∃ j, (s.x j = q ∧ s.searchAux q i fuel = (some (s.y j), { s with prev_point := j })) ∨
        (s.x j < q ∧ q < s.x (j + 1) ∧
          s.searchAux q i fuel = (s.calcVal q j, { s with prev_point := j })) := by
  intro fuel
  induction fuel with
  | zero => intro i; exact Or.inl rfl
  | succ fuel ih =>
    intro i
    by_cases h1 : s.x ((i + s.prev_point) % s.length) = q
    · refine Or.inr ⟨(i + s.prev_point) % s.length, Or.inl ⟨h1, ?_⟩⟩
      simp only [Spline.searchAux, if_pos h1]
    · by_cases h2 : s.x ((i + s.prev_point) % s.length) < q ∧
          q < s.x ((i + s.prev_point) % s.length + 1)
      · refine Or.inr ⟨(i + s.prev_point) % s.length, Or.inr ⟨h2.1, h2.2, ?_⟩⟩
        simp only [Spline.searchAux, if_neg h1, if_pos h2]
      · have hstep : s.searchAux q i (fuel + 1) = s.searchAux q (i + 1) fuel := by
          simp only [Spline.searchAux, if_neg h1, if_neg h2]
        rw [hstep]
        exact ih (i + 1)

/-- If no valid index is a containing segment and some reachable step
hits an exact match, the loop returns that exact match. -/
lemma searchAux_exact (s : Spline) (q : ℚ) (hN : 0 < s.length)
    (hnc : ∀ j, j < s.length → ¬(s.x j < q ∧ q < s.x (j + 1))) :
    ∀ fuel i, (∃ k, k < fuel ∧ s.x ((i + k + s.prev_point) % s.length) = q) →
      ∃ j, j < s.length ∧ s.x j = q ∧
        s.searchAux q i fuel = (some (s.y j), { s with prev_point := j }) := by
  intro fuel
  induction fuel with
  | zero => rintro i ⟨k, hk, _⟩; exact absurd hk (Nat.not_lt_zero k)
  | succ fuel ih =>
    rintro i ⟨k, hk, hxk⟩
    by_cases h1 : s.x ((i + s.prev_point) % s.length) = q
    · exact ⟨(i + s.prev_point) % s.length, Nat.mod_lt _ hN, h1, by
        simp only [Spline.searchAux, if_pos h1]⟩
    · have h2 := hnc ((i + s.prev_point) % s.length) (Nat.mod_lt _ hN)
      have hstep : s.searchAux q i (fuel + 1) = s.searchAux q (i + 1) fuel := by
        simp only [Spline.searchAux, if_neg h1, if_neg h2]
      rw [hstep]
      apply ih (i + 1)
      have hk0 : k ≠ 0 := by
        intro h0
        rw [h0, Nat.add_zero] at hxk
        exact h1 hxk
      refine ⟨k - 1, by omega, ?_⟩
      have harith : i + 1 + (k - 1) = i + k := by omega
      rw [harith]
      exact hxk

/-- The loop returns at the first matching index in its scan order:
if step `k0` is the first one whose index `(i + k0 + cursor) % N`
matches, the result is that index's exact-match or `calc` value, with
the cursor set to it. -/
lemma searchAux_first (s : Spline) (q : ℚ) :
    ∀ fuel k0 i, k0 < fuel →
      s.MatchAt q ((i + k0 + s.prev_point) % s.length) →
      (∀ k, k < k0 → ¬ s.MatchAt q ((i + k + s.prev_point) % s.length)) →
      s.searchAux q i fuel =
        ((if s.x ((i + k0 + s.prev_point) % s.length) = q
            then some (s.y ((i + k0 + s.prev_point) % s.length))
            else s.calcVal q ((i + k0 + s.prev_point) % s.length)),
          { s with prev_point := (i + k0 + s.prev_point) % s.length }) := by
  intro fuel
  induction fuel with
  | zero => intro k0 i hk0 _ _; exact absurd hk0 (Nat.not_lt_zero k0)
  | succ fuel ih =>
    intro k0 i hk0 hm hmin
    cases k0 with
    | zero =>
      simp only [Nat.add_zero] at hm ⊢
      by_cases h1 : s.x ((i + s.prev_point) % s.length) = q
      · simp only [Spline.searchAux, if_pos h1]
      · have h2 : s.x ((i + s.prev_point) % s.length) < q ∧
            q < s.x ((i + s.prev_point) % s.length + 1) := hm.resolve_left h1
        simp only [Spline.searchAux, if_neg h1, if_pos h2]
    | succ k0 =>
      have hnm := hmin 0 (Nat.succ_pos k0)
      simp only [Nat.add_zero] at hnm
      have h1 : ¬ s.x ((i + s.prev_point) % s.length) = q := fun h => hnm (Or.inl h)
      have h2 : ¬ (s.x ((i + s.prev_point) % s.length) < q ∧
          q < s.x ((i + s.prev_point) % s.length + 1)) := fun h => hnm (Or.inr h)
      have hstep : s.searchAux q i (fuel + 1) = s.searchAux q (i + 1) fuel := by
        simp only [Spline.searchAux, if_neg h1, if_neg h2]
      rw [hstep]
      have harith : i + (k0 + 1) = i + 1 + k0 := by omega
      rw [harith] at hm ⊢
      apply ih k0 (i + 1) (by omega) hm
      intro k hk
      have harith2 : i + 1 + k = i + (k + 1) := by omega
      rw [harith2]
      exact hmin (k + 1) (by omega)

/-- A recognized degree always yields a value from `calc`. -/
lemma calcVal_isSome (s : Spline)
    (hd : s.degree = 0 ∨ s.degree = 1 ∨ s.degree = 10 ∨ s.degree = 11)
    (q : ℚ) (i : ℕ) : (s.calcVal q i).isSome := by
  rcases hd with h | h | h | h <;>
    simp only [Spline.calcVal, h] <;> norm_num <;> split_ifs <;> rfl

/-- If a reachable step matches and `calc` never returns `none`, the
loop returns a value. -/
lemma searchAux_total (s : Spline) (q : ℚ)
    (hcalc : ∀ j, (s.calcVal q j).isSome) :
    ∀ fuel i, (∃ k, k < fuel ∧ s.MatchAt q ((i + k + s.prev_point) % s.length)) →
      ((s.searchAux q i fuel).1).isSome := by
  intro fuel
  induction fuel with
  | zero => rintro i ⟨k, hk, _⟩; exact absurd hk (Nat.not_lt_zero k)
  | succ fuel ih =>
    rintro i ⟨k, hk, hm⟩
    by_cases h1 : s.x ((i + s.prev_point) % s.length) = q
    · simp only [Spline.searchAux, if_pos h1]
      rfl
    · by_cases h2 : s.x ((i + s.prev_point) % s.length) < q ∧
          q < s.x ((i + s.prev_point) % s.length + 1)
      · simp only [Spline.searchAux, if_neg h1, if_pos h2]
        exact hcalc _
      · have hstep : s.searchAux q i (fuel + 1) = s.searchAux q (i + 1) fuel := by
          simp only [Spline.searchAux, if_neg h1, if_neg h2]
        rw [hstep]
        apply ih (i + 1)
        have hk0 : k ≠ 0 := by
          intro h0
          rw [h0, Nat.add_zero] at hm
          exact hm.elim h1 h2
        refine ⟨k - 1, by omega, ?_⟩
        have harith : i + 1 + (k - 1) = i + k := by omega
        rw [harith]
        exact hm

/-- Every residue `j < N` is reached by some step `k < N` of the
cyclic scan, whatever the cursor `p` is. -/
lemma exists_shift {N : ℕ} (hN : 0 < N) (p j : ℕ) (hj : j < N) :
    ∃ k, k < N ∧ (k + p) % N = j := by
  have hp : p % N < N := Nat.mod_lt _ hN
  by_cases h : p % N ≤ j
  · refine ⟨j - p % N, by omega, ?_⟩
    rw [Nat.add_mod, Nat.mod_eq_of_lt (show j - p % N < N by omega)]
    have harith : j - p % N + p % N = j := by omega
    rw [harith, Nat.mod_eq_of_lt hj]
  · refine ⟨N + j - p % N, by omega, ?_⟩
    rw [Nat.add_mod, Nat.mod_eq_of_lt (show N + j - p % N < N by omega)]
    have harith : N + j - p % N + p % N = N + j := by omega
    rw [harith, Nat.add_mod_left, Nat.mod_eq_of_lt hj]

/-- Climbing helper: between a sample strictly below `q` and a last
sample strictly above it lies a containing segment. -/
lemma exists_cross (s : Spline) (q : ℚ) :
    ∀ d b, b + d = s.length - 1 → s.x b < q → q < s.x (s.length - 1) →
      ∃ j, j < s.length - 1 ∧ s.x j < q ∧ ¬ s.x (j + 1) < q := by
  intro d
  induction d with
  | zero =>
    intro b hb hxb hlast
    rw [Nat.add_zero] at hb
    rw [hb] at hxb
    exact absurd hlast (not_lt.mpr (le_of_lt hxb))
  | succ d ih =>
    intro b hb hxb hlast
    by_cases h : s.x (b + 1) < q
    · exact ih (b + 1) (by omega) h hlast
    · exact ⟨b, by omega, hxb, h⟩

/-- An in-range query always has a matching index. -/
lemma exists_match (s : Spline) (q : ℚ) (hN : 0 < s.length)
    (hlo : s.x 0 ≤ q) (hhi : q ≤ s.x (s.length - 1)) :
    ∃ j, j < s.length ∧ s.MatchAt q j := by
  by_cases hex : ∃ i, i < s.length ∧ s.x i = q
  · obtain ⟨i, hi, hxi⟩ := hex
    exact ⟨i, hi, Or.inl hxi⟩
  · push_neg at hex
    have h0 : s.x 0 < q := lt_of_le_of_ne hlo (hex 0 hN)
    have hlast : q < s.x (s.length - 1) :=
      lt_of_le_of_ne hhi (fun h => hex (s.length - 1) (by omega) h.symm)
    obtain ⟨j, hj, hja, hjb⟩ :=
      exists_cross s q (s.length - 1) 0 (by omega) h0 hlast
    have hgt : q < s.x (j + 1) :=
      lt_of_le_of_ne (not_lt.mp hjb) (fun h => hex (j + 1) (by omega) h.symm)
    exact ⟨j, by omega, Or.inr ⟨hja, hgt⟩⟩

/-- In-range queries skip both flat-extrapolation branches. -/
lemma value_eq_searchAux (s : Spline) (q : ℚ) (h1 : ¬ s.x 0 > q)
    (h2 : ¬ s.x (s.length - 1) < q) : s.value q = s.searchAux q 0 s.length := by
  simp only [Spline.value, if_neg h1, if_neg h2]

/-- `value` on an in-range query returns the first matching index of
the cyclic scan (step count `k0`), with the cursor set to it. -/
lemma value_first_match (s : Spline) (q : ℚ) (h1 : ¬ s.x 0 > q)
    (h2 : ¬ s.x (s.length - 1) < q) (k0 : ℕ) (hk0 : k0 < s.length)
    (hm : s.MatchAt q ((k0 + s.prev_point) % s.length))
    (hmin : ∀ k, k < k0 → ¬ s.MatchAt q ((k + s.prev_point) % s.length)) :
    s.value q =
      ((if s.x ((k0 + s.prev_point) % s.length) = q
          then some (s.y ((k0 + s.prev_point) % s.length))
          else s.calcVal q ((k0 + s.prev_point) % s.length)),
        { s with prev_point := (k0 + s.prev_point) % s.length }) := by
  rw [value_eq_searchAux s q h1 h2]
  have hres := searchAux_first s q s.length k0 0 hk0 (by rw [Nat.zero_add]; exact hm)
    (fun k hk => by rw [Nat.zero_add]; exact hmin k hk)
  rw [Nat.zero_add] at hres
  exact hres

/-- A query equal to a sample's x on a sorted table returns some
sample's y at an index with that very x, via the exact-match branch. -/
lemma value_at_sample (s : Spline) (hN : 0 < s.length) (hs : s.SortedX)
    (i0 : ℕ) (hi0 : i0 < s.length) :
    ∃ j, j < s.length ∧ s.x j = s.x i0 ∧
      s.value (s.x i0) = (some (s.y j), { s with prev_point := j }) := by
  have h1 : ¬ s.x 0 > s.x i0 := not_lt.mpr (sortedX_mono hs 0 i0 (Nat.zero_le _) hi0)
  have h2 : ¬ s.x (s.length - 1) < s.x i0 :=
    not_lt.mpr (sortedX_mono hs i0 (s.length - 1) (by omega) (by omega))
  have hnc : ∀ j, j < s.length → ¬(s.x j < s.x i0 ∧ s.x i0 < s.x (j + 1)) := by
    rintro j hj ⟨ha, hb⟩
    by_cases hij : i0 ≤ j
    · exact absurd ha (not_lt.mpr (sortedX_mono hs i0 j hij hj))
    · exact absurd hb (not_lt.mpr (sortedX_mono hs (j + 1) i0 (by omega) hi0))
  obtain ⟨k, hk, hkeq⟩ := exists_shift hN s.prev_point i0 hi0
  obtain ⟨j, hj, hxj, hres⟩ := searchAux_exact s (s.x i0) hN hnc s.length 0
    ⟨k, hk, by rw [Nat.zero_add, hkeq]⟩
  exact ⟨j, hj, hxj, by rw [value_eq_searchAux s (s.x i0) h1 h2]; exact hres⟩

/-! Claims. -/

/-- Claim C1, counterexample: on the sorted table with duplicate
boundary abscissae `x = [0, 0]`, `y = [3, 7]` and the reachable cursor
1, the query `0 ≤ x[0]` makes `value` return `y[1] = 7`, not `y[0]`:
flat extrapolation as claimed fails at the boundary abscissa when it
is duplicated. -/
theorem C1_cex :
    dupSpline.SortedX ∧ 0 < dupSpline.length ∧
    dupSpline.prev_point < dupSpline.length ∧ (0 : ℚ) ≤ dupSpline.x 0 ∧
    (dupSpline.value 0).1 ≠ some (dupSpline.y 0) :=
  ⟨by decide, by decide, by decide, by decide, by decide⟩

/-- Claim C1 (amended to strictly increasing sample abscissae): for
every table with strictly increasing x and every query `q ≤ x[0]`,
`value q` returns `y[0]`; for every query `q ≥ x[N-1]`, `value q`
returns `y[N-1]` — in every interpolation mode and cursor state. -/
theorem C1_flat_extrapolation (s : Spline) (q : ℚ) (hN : 0 < s.length)
    (hst : s.StrictX) :
    (q ≤ s.x 0 → (s.value q).1 = some (s.y 0)) ∧
    (s.x (s.length - 1) ≤ q → (s.value q).1 = some (s.y (s.length - 1))) := by
  constructor
  · intro hq
    rcases lt_or_eq_of_le hq with h | h
    · simp only [Spline.value, if_pos (show s.x 0 > q from h)]
    · obtain ⟨j, hj, hxj, hres⟩ := value_at_sample s hN (strictX_sortedX hst) 0 hN
      have hj0 : j = 0 := strictX_inj hst hj hN hxj
      rw [h, hres, hj0]
  · intro hq
    rcases lt_or_eq_of_le hq with h | h
    · have h1 : ¬ s.x 0 > q := not_lt.mpr (le_trans
        (sortedX_mono (strictX_sortedX hst) 0 (s.length - 1) (Nat.zero_le _) (by omega))
        (le_of_lt h))
      simp only [Spline.value, if_neg h1, if_pos h]
    · obtain ⟨j, hj, hxj, hres⟩ :=
        value_at_sample s hN (strictX_sortedX hst) (s.length - 1) (by omega)
      have hj0 : j = s.length - 1 := strictX_inj hst hj (by omega) hxj
      rw [← h, hres, hj0]

/-- Claim C1 (amended), witness at the strictly increasing table
`x = [0,2,4,6]`, `y = [0,1,4,9]`, cursor 2: `value 0 = some (y 0)` and
`value 7 = some (y 3)`. -/
theorem C1_witness :
    0 < quadSpline.length ∧ quadSpline.StrictX ∧
    ((0 : ℚ) ≤ quadSpline.x 0 ∧ (quadSpline.value 0).1 = some (quadSpline.y 0)) ∧
    (quadSpline.x (quadSpline.length - 1) ≤ 7 ∧
      (quadSpline.value 7).1 = some (quadSpline.y (quadSpline.length - 1))) := by
  refine ⟨by decide, by decide, ⟨by decide, ?_⟩, ⟨by decide, ?_⟩⟩
  · exact (C1_flat_extrapolation quadSpline 0 (by decide) (by decide)).1 (by decide)
  · exact (C1_flat_extrapolation quadSpline 7 (by decide) (by decide)).2 (by decide)

/-- Claim C2, counterexample: on the sorted table `x = [0, 0]`,
`y = [3, 7]` with the initial cursor 0, `value (x 1)` returns
`y[0] = 3`, not `y[1]`: sample-point exactness fails at duplicated
abscissae. -/
theorem C2_cex :
    dupSpline0.SortedX ∧ 1 < dupSpline0.length ∧
    dupSpline0.prev_point < dupSpline0.length ∧
    (dupSpline0.value (dupSpline0.x 1)).1 ≠ some (dupSpline0.y 1) :=
  ⟨by decide, by decide, by decide, by decide⟩

/-- Claim C2 (amended to strictly increasing sample abscissae): for
every table with strictly increasing x, every mode and cursor state,
and every `i < N`, `value (x i)` returns exactly `some (y i)` through
the exact-match branch (the cursor is set to `i` and no interpolation
arithmetic takes place). -/
theorem C2_sample_exact (s : Spline) (hN : 0 < s.length) (hst : s.StrictX)
    (i : ℕ) (hi : i < s.length) :
    s.value (s.x i) = (some (s.y i), { s with prev_point := i }) := by
  obtain ⟨j, hj, hxj, hres⟩ := value_at_sample s hN (strictX_sortedX hst) i hi
  have hij : j = i := strictX_inj hst hj hi hxj
  rw [hres, hij]

/-- Claim C2 (amended), witness: on the strictly increasing table,
`value (x 1)` is exactly `(some (y 1), cursor := 1)`. -/
theorem C2_witness :
    0 < quadSpline.length ∧ quadSpline.StrictX ∧ 1 < quadSpline.length ∧
    quadSpline.value (quadSpline.x 1) =
      (some (quadSpline.y 1), { quadSpline with prev_point := 1 }) :=
  ⟨by decide, by decide, by decide,
    C2_sample_exact quadSpline (by decide) (by decide) 1 (by decide)⟩

/-- Claim C3: in Linear mode, a value computed for a located segment
`i = ` new cursor with `x[i] < q < x[i+1]` equals
`y[i] + (y[i+1] - y[i]) * (q - x[i]) / (x[i+1] - x[i])`; and on a
degenerate segment (`x[i] = x[i+1]`) `calc` returns `y[i]` instead,
avoiding the division by zero. -/
theorem C3_linear_formula (s : Spline) (q : ℚ) (hN : 0 < s.length)
    (hs : s.SortedX) (hd : s.degree = 1) (hlo : s.x 0 ≤ q)
    (hhi : q ≤ s.x (s.length - 1)) :
    (∀ v s', s.value q = (some v, s') →
      s.x s'.prev_point < q → q < s.x (s'.prev_point + 1) →
      v = s.y s'.prev_point + (s.y (s'.prev_point + 1) - s.y s'.prev_point) *
        (q - s.x s'.prev_point) / (s.x (s'.prev_point + 1) - s.x s'.prev_point)) ∧
    (∀ i, s.x i = s.x (i + 1) → s.calcVal q i = some (s.y i)) := by
  constructor
  · intro v s' hval hlt1 hlt2
    rw [value_eq_searchAux s q (not_lt.mpr hlo) (not_lt.mpr hhi)] at hval
    rcases searchAux_cases s q s.length 0 with hc | ⟨j, hc | hc⟩
    · rw [hc] at hval
      exact absurd (congrArg Prod.fst hval) (by simp)
    · obtain ⟨hxj, heq⟩ := hc
      rw [heq] at hval
      have hsnd : ({ s with prev_point := j } : Spline) = s' := congrArg Prod.snd hval
      subst hsnd
      have hxlt : s.x j < q := hlt1
      rw [hxj] at hxlt
      exact absurd hxlt (lt_irrefl q)
    · obtain ⟨hxlt, hqlt, heq⟩ := hc
      rw [heq] at hval
      have hv : s.calcVal q j = some v := congrArg Prod.fst hval
      have hsnd : ({ s with prev_point := j } : Spline) = s' := congrArg Prod.snd hval
      subst hsnd
      have hne : s.x j ≠ s.x (j + 1) := ne_of_lt (lt_trans hxlt hqlt)
      have hcv : s.calcVal q j =
          some (s.y j + (s.y (j + 1) - s.y j) * (q - s.x j) / (s.x (j + 1) - s.x j)) := by
        simp only [Spline.calcVal, hd]
        norm_num [hne]
      rw [hcv] at hv
      exact (Option.some_inj.mp hv).symm
  · intro i hxi
    simp only [Spline.calcVal, hd]
    norm_num [hxi]

/-- Claim C3, witness: on `x = [0,2,4,6]`, `y = [0,1,4,9]` (Linear,
cursor 2) the query 1 lands in segment 0 and
`value 1 = some (0 + (1 - 0) * (1 - 0) / (2 - 0)) = some (1/2)`. -/
theorem C3_witness :
    0 < quadSpline.length ∧ quadSpline.SortedX ∧ quadSpline.degree = 1 ∧
    quadSpline.x 0 ≤ 1 ∧ (1 : ℚ) ≤ quadSpline.x (quadSpline.length - 1) ∧
    quadSpline.value 1 = (some (1/2), { quadSpline with prev_point := 0 }) ∧
    quadSpline.x 0 < 1 ∧ (1 : ℚ) < quadSpline.x (0 + 1) ∧
    (1/2 : ℚ) = quadSpline.y 0 + (quadSpline.y (0 + 1) - quadSpline.y 0) *
      ((1 : ℚ) - quadSpline.x 0) / (quadSpline.x (0 + 1) - quadSpline.x 0) := by
  have hval : quadSpline.value 1 = (some (1/2), { quadSpline with prev_point := 0 }) := by
    have h := value_first_match quadSpline 1 (by decide) (by decide) 2 (by decide)
      (by decide) (by decide)
    rw [h, if_neg (by decide :
      ¬ quadSpline.x ((2 + quadSpline.prev_point) % quadSpline.length) = 1)]
    have hc : quadSpline.calcVal 1 ((2 + quadSpline.prev_point) % quadSpline.length) =
        some (1/2) := by
      norm_num [Spline.calcVal, quadSpline]
    rw [hc]
    rfl
  refine ⟨by decide, by decide, by decide, by decide, by decide, hval,
    by decide, by decide, ?_⟩
  exact (C3_linear_formula quadSpline 1 (by decide) (by decide) (by decide) (by decide)
    (by decide)).1 (1/2) { quadSpline with prev_point := 0 } hval (by decide) (by decide)

/-- Claim C4: on an in-range query the cyclic scan examines indices
`(k + cursor) % N` for `k = 0, 1, ...`; if step `k0 < N` is the first
whose index is an exact match or containing segment, `value` returns
that index's result (`y[index]` if exact, else `calc(q, index)`) and
sets the cursor to that index. -/
theorem C4_search_order (s : Spline) (q : ℚ) (hN : 0 < s.length)
    (hs : s.SortedX) (hp : s.prev_point < s.length)
    (hlo : s.x 0 ≤ q) (hhi : q ≤ s.x (s.length - 1)) (k0 : ℕ) (hk0 : k0 < s.length)
    (hm : s.MatchAt q ((k0 + s.prev_point) % s.length))
    (hmin : ∀ k, k < k0 → ¬ s.MatchAt q ((k + s.prev_point) % s.length)) :
    s.value q =
      ((if s.x ((k0 + s.prev_point) % s.length) = q
          then some (s.y ((k0 + s.prev_point) % s.length))
          else s.calcVal q ((k0 + s.prev_point) % s.length)),
        { s with prev_point := (k0 + s.prev_point) % s.length }) :=
  value_first_match s q (not_lt.mpr hlo) (not_lt.mpr hhi) k0 hk0 hm hmin

/-- Claim C4, witness: with cursor 2 on the four-point table, the
query 1 skips indices 2 and 3 (steps 0 and 1) and stops at index
`(2 + 2) % 4 = 0`, a containing segment, updating the cursor to 0. -/
theorem C4_witness :
    0 < quadSpline.length ∧ quadSpline.SortedX ∧
    quadSpline.prev_point < quadSpline.length ∧
    quadSpline.x 0 ≤ 1 ∧ (1 : ℚ) ≤ quadSpline.x (quadSpline.length - 1) ∧
    2 < quadSpline.length ∧
    quadSpline.MatchAt 1 ((2 + quadSpline.prev_point) % quadSpline.length) ∧
    (∀ k, k < 2 → ¬ quadSpline.MatchAt 1 ((k + quadSpline.prev_point) % quadSpline.length)) ∧
    quadSpline.value 1 =
      ((if quadSpline.x ((2 + quadSpline.prev_point) % quadSpline.length) = 1
          then some (quadSpline.y ((2 + quadSpline.prev_point) % quadSpline.length))
          else quadSpline.calcVal 1 ((2 + quadSpline.prev_point) % quadSpline.length)),
        { quadSpline with prev_point := (2 + quadSpline.prev_point) % quadSpline.length }) := by
  refine ⟨by decide, by decide, by decide, by decide, by decide, by decide, by decide,
    by decide, ?_⟩
  exact C4_search_order quadSpline 1 (by decide) (by decide) (by decide) (by decide)
    (by decide) 2 (by decide) (by decide) (by decide)

/-- Claim C5, counterexample: on the two-point CatmullRom table
`x = [0, 2]`, `y = [5, 7]`, the query 1 locates segment
`0 = length - 2`, yet `value` returns `y[1] = 7` and not
`y[length - 2] = y[0] = 5`: the `i = 0` branch takes precedence over
the `i = length - 2` branch, so the claim fails when the located
segment is both. -/
theorem C5_cex :
    catSpline2.SortedX ∧ catSpline2.degree = 11 ∧
    (catSpline2.value 1).2.prev_point = catSpline2.length - 2 ∧
    (catSpline2.value 1).1 = some 7 ∧ catSpline2.y (catSpline2.length - 2) = 5 ∧
    (catSpline2.value 1).1 ≠ some (catSpline2.y (catSpline2.length - 2)) :=
  ⟨by decide, by decide, by decide, by decide, by decide, by decide⟩

/-- Claim C5 (amended with the code's branch precedence): in
CatmullRom mode, `calc(q, 0)` returns `y[1]` for every query, and
`calc(q, i)` with `i = length - 2` and `i ≠ 0` returns
`y[length - 2]` for every query. -/
theorem C5_catmull_boundary (s : Spline) (q : ℚ) (i : ℕ) (hd : s.degree = 11) :
    (i = 0 → s.calcVal q i = some (s.y 1)) ∧
    (i = s.length - 2 → i ≠ 0 → s.calcVal q i = some (s.y (s.length - 2))) := by
  constructor
  · intro h0
    subst h0
    simp only [Spline.calcVal, hd]
    norm_num
  · intro hlast h0
    subst hlast
    simp only [Spline.calcVal, hd]
    norm_num [h0]

/-- Claim C5 (amended), witness on the four-point CatmullRom table:
`calc(1, 0) = some (y 1)` and `calc(5, 2) = some (y 2)` with
`2 = length - 2`. -/
theorem C5_witness :
    catSpline4.degree = 11 ∧ catSpline4.calcVal 1 0 = some (catSpline4.y 1) ∧
    2 = catSpline4.length - 2 ∧ (2 : ℕ) ≠ 0 ∧
    catSpline4.calcVal 5 2 = some (catSpline4.y (catSpline4.length - 2)) := by
  refine ⟨by decide, ?_, by decide, by decide, ?_⟩
  · exact (C5_catmull_boundary catSpline4 1 0 (by decide)).1 rfl
  · exact (C5_catmull_boundary catSpline4 5 2 (by decide)).2 (by decide) (by decide)

/-- Claim C6: in Hermite mode, a value computed for a located segment
`i = ` new cursor with `x[i] < q < x[i+1]` and
`t = (q - x[i]) / (x[i+1] - x[i])` equals
`h00(t)*y[i] + h10(t)*(x[i+1]-x[i])*m[i] + h01(t)*y[i+1] +
h11(t)*(x[i+1]-x[i])*m[i+1]` with the four cubic Hermite basis
polynomials. -/
theorem C6_hermite_formula (s : Spline) (q : ℚ) (hN : 0 < s.length)
    (hs : s.SortedX) (hd : s.degree = 10) (hlo : s.x 0 ≤ q)
    (hhi : q ≤ s.x (s.length - 1)) :
    ∀ v s', s.value q = (some v, s') →
      s.x s'.prev_point < q → q < s.x (s'.prev_point + 1) →
      ∀ t, t = (q - s.x s'.prev_point) / (s.x (s'.prev_point + 1) - s.x s'.prev_point) →
        (v = hermite_00 t * s.y s'.prev_point
            + hermite_10 t * (s.x (s'.prev_point + 1) - s.x s'.prev_point) * s.m s'.prev_point
            + hermite_01 t * s.y (s'.prev_point + 1)
            + hermite_11 t * (s.x (s'.prev_point + 1) - s.x s'.prev_point) * s.m (s'.prev_point + 1)) ∧
        hermite_00 t = 2 * t ^ 3 - 3 * t ^ 2 + 1 ∧
        hermite_10 t = t ^ 3 - 2 * t ^ 2 + t ∧
        hermite_01 t = 3 * t ^ 2 - 2 * t ^ 3 ∧
        hermite_11 t = t ^ 3 - t ^ 2 := by
  intro v s' hval hlt1 hlt2 t ht
  rw [value_eq_searchAux s q (not_lt.mpr hlo) (not_lt.mpr hhi)] at hval
  rcases searchAux_cases s q s.length 0 with hc | ⟨j, hc | hc⟩
  · rw [hc] at hval
    exact absurd (congrArg Prod.fst hval) (by simp)
  · obtain ⟨hxj, heq⟩ := hc
    rw [heq] at hval
    have hsnd : ({ s with prev_point := j } : Spline) = s' := congrArg Prod.snd hval
    subst hsnd
    have hxlt : s.x j < q := hlt1
    rw [hxj] at hxlt
    exact absurd hxlt (lt_irrefl q)
  · obtain ⟨hxlt, hqlt, heq⟩ := hc
    rw [heq] at hval
    have hv : s.calcVal q j = some v := congrArg Prod.fst hval
    have hsnd : ({ s with prev_point := j } : Spline) = s' := congrArg Prod.snd hval
    subst hsnd
    have hcv : s.calcVal q j = some (hermite ((q - s.x j) / (s.x (j + 1) - s.x j))
        (s.y j) (s.y (j + 1)) (s.m j) (s.m (j + 1)) (s.x j) (s.x (j + 1))) := by
      simp only [Spline.calcVal, hd]
      norm_num
    rw [hcv] at hv
    subst ht
    exact ⟨(Option.some_inj.mp hv).symm, rfl, rfl, rfl, rfl⟩

/-- Claim C6, witness: on the Hermite table `x = [0,2,4,6]`,
`y = [0,1,4,9]`, `m ≡ 1`, cursor 2, the query 1 lands in segment 0
with `t = 1/2` and `value 1` is the Hermite blend of the endpoint
values and tangents. -/
theorem C6_witness :
    0 < hermSpline.length ∧ hermSpline.SortedX ∧ hermSpline.degree = 10 ∧
    hermSpline.x 0 ≤ 1 ∧ (1 : ℚ) ≤ hermSpline.x (hermSpline.length - 1) ∧
    hermSpline.value 1 =
      (some (hermite (1/2) 0 1 1 1 0 2), { hermSpline with prev_point := 0 }) ∧
    hermite (1/2) 0 1 1 1 0 2 =
      hermite_00 (1/2) * hermSpline.y 0
        + hermite_10 (1/2) * (hermSpline.x (0 + 1) - hermSpline.x 0) * hermSpline.m 0
        + hermite_01 (1/2) * hermSpline.y (0 + 1)
        + hermite_11 (1/2) * (hermSpline.x (0 + 1) - hermSpline.x 0) * hermSpline.m (0 + 1) := by
  have hval : hermSpline.value 1 =
      (some (hermite (1/2) 0 1 1 1 0 2), { hermSpline with prev_point := 0 }) := by
    have h := value_first_match hermSpline 1 (by decide) (by decide) 2 (by decide)
      (by decide) (by decide)
    rw [h, if_neg (by decide :
      ¬ hermSpline.x ((2 + hermSpline.prev_point) % hermSpline.length) = 1)]
    have hc : hermSpline.calcVal 1 ((2 + hermSpline.prev_point) % hermSpline.length) =
        some (hermite (1/2) 0 1 1 1 0 2) := by
      norm_num [Spline.calcVal, hermSpline, quadSpline]
    rw [hc]
    rfl
  refine ⟨by decide, by decide, by decide, by decide, by decide, hval, ?_⟩
  exact ((C6_hermite_formula hermSpline 1 (by decide) (by decide) (by decide) (by decide)
    (by decide)) (hermite (1/2) 0 1 1 1 0 2) { hermSpline with prev_point := 0 } hval
    (by decide) (by decide) (1/2) (by norm_num [hermSpline, quadSpline])).1

/-- Claim C7: `catmull_tangent i` for interior `i` returns 0 when
`x[i+1] = x[i-1]` and otherwise the centered finite difference
`(y[i+1] - y[i-1]) / (x[i+1] - x[i-1])`; the division is guarded. -/
theorem C7_catmull_tangent_guard (s : Spline) (i : ℕ) (hi0 : 0 < i)
    (hiN : i < s.length - 1) :
    (s.x (i + 1) = s.x (i - 1) → s.catmull_tangent i = 0) ∧
    (s.x (i + 1) ≠ s.x (i - 1) →
      s.catmull_tangent i = (s.y (i + 1) - s.y (i - 1)) / (s.x (i + 1) - s.x (i - 1))) := by
  constructor
  · intro h
    simp only [Spline.catmull_tangent, if_pos h]
  · intro h
    simp only [Spline.catmull_tangent, if_neg h]

/-- Claim C7, witness at the interior index 1 of the four-point
table: neighbors differ, so the tangent is the centered difference. -/
theorem C7_witness :
    0 < 1 ∧ 1 < quadSpline.length - 1 ∧
    quadSpline.x (1 + 1) ≠ quadSpline.x (1 - 1) ∧
    quadSpline.catmull_tangent 1 =
      (quadSpline.y (1 + 1) - quadSpline.y (1 - 1)) /
        (quadSpline.x (1 + 1) - quadSpline.x (1 - 1)) :=
  ⟨by decide, by decide, by decide,
    (C7_catmull_tangent_guard quadSpline 1 (by decide) (by decide)).2 (by decide)⟩

/-- Claim C8, counterexample: on the table `x = [0, 0]`, `y = [3, 7]`
with the reachable cursor 1, `value` at the shared abscissa returns
`y[1] = 7`, not the first of the two y's (`y[0] = 3`): which duplicate
is returned depends on the cursor. -/
theorem C8_cex :
    dupSpline.SortedX ∧ dupSpline.x 0 = dupSpline.x (0 + 1) ∧
    0 + 1 < dupSpline.length ∧ dupSpline.prev_point < dupSpline.length ∧
    (dupSpline.value (dupSpline.x 0)).1 ≠ some (dupSpline.y 0) :=
  ⟨by decide, by decide, by decide, by decide, by decide⟩

/-- Claim C8 (amended): on a sorted table with adjacent duplicate
abscissae `x[i] = x[i+1]`, `value` at that shared abscissa returns,
through the exact-match branch and with no division performed, the y
of some index whose x equals the query (which of the duplicates
depends on the cursor). -/
theorem C8_duplicate_query (s : Spline) (hN : 0 < s.length) (hs : s.SortedX)
    (i : ℕ) (hi : i + 1 < s.length) (hdup : s.x i = s.x (i + 1)) :
    ∃ j, j < s.length ∧ s.x j = s.x i ∧
      s.value (s.x i) = (some (s.y j), { s with prev_point := j }) :=
  value_at_sample s hN hs i (by omega)

/-- Claim C8 (amended), witness on the duplicate-x table. -/
theorem C8_witness :
    0 < dupSpline.length ∧ dupSpline.SortedX ∧ 0 + 1 < dupSpline.length ∧
    dupSpline.x 0 = dupSpline.x (0 + 1) ∧
    (∃ j, j < dupSpline.length ∧ dupSpline.x j = dupSpline.x 0 ∧
      dupSpline.value (dupSpline.x 0) =
        (some (dupSpline.y j), { dupSpline with prev_point := j })) :=
  ⟨by decide, by decide, by decide, by decide,
    C8_duplicate_query dupSpline (by decide) (by decide) 0 (by decide) (by decide)⟩

/-- Claim C9: on a sorted table with a recognized mode, a cursor in
range and an in-range query, the cyclic scan always stops at an exact
match or containing segment within its `length` iterations, so
`value` returns a defined result (the loop's fall-through path is
unreachable) and the new cursor is a matching index. -/
theorem C9_search_total (s : Spline) (q : ℚ) (hN : 0 < s.length)
    (hs : s.SortedX) (hp : s.prev_point < s.length)
    (hdeg : s.degree = 0 ∨ s.degree = 1 ∨ s.degree = 10 ∨ s.degree = 11)
    (hlo : s.x 0 ≤ q) (hhi : q ≤ s.x (s.length - 1)) :
    ((s.value q).1).isSome ∧ s.MatchAt q ((s.value q).2.prev_point) := by
  obtain ⟨j, hj, hmj⟩ := exists_match s q hN hlo hhi
  obtain ⟨k, hk, hkeq⟩ := exists_shift hN s.prev_point j hj
  have hex : ∃ k2, k2 < s.length ∧ s.MatchAt q ((0 + k2 + s.prev_point) % s.length) :=
    ⟨k, hk, by rw [Nat.zero_add, hkeq]; exact hmj⟩
  have hsome := searchAux_total s q (fun j2 => calcVal_isSome s hdeg q j2) s.length 0 hex
  rw [value_eq_searchAux s q (not_lt.mpr hlo) (not_lt.mpr hhi)]
  refine ⟨hsome, ?_⟩
  rcases searchAux_cases s q s.length 0 with hc | ⟨j2, hc | hc⟩
  · rw [hc] at hsome
    exact absurd hsome (by simp)
  · rw [hc.2]
    exact Or.inl hc.1
  · rw [hc.2.2]
    exact Or.inr ⟨hc.1, hc.2.1⟩

/-- Claim C9, witness: the in-range query 3 on the four-point Linear
table yields a defined value and a matching cursor. -/
theorem C9_witness :
    0 < quadSpline.length ∧ quadSpline.SortedX ∧
    quadSpline.prev_point < quadSpline.length ∧ quadSpline.degree = 1 ∧
    quadSpline.x 0 ≤ 3 ∧ (3 : ℚ) ≤ quadSpline.x (quadSpline.length - 1) ∧
    (((quadSpline.value 3).1).isSome ∧
      quadSpline.MatchAt 3 ((quadSpline.value 3).2.prev_point)) := by
  refine ⟨by decide, by decide, by decide, by decide, by decide, by decide, ?_⟩
  exact C9_search_total quadSpline 3 (by decide) (by decide) (by decide)
    (Or.inr (Or.inl (by decide))) (by decide) (by decide)

/-- Claim C10: `value` never changes the borrowed arrays, the length
or the degree; both flat-extrapolation branches leave the whole state
(in particular the cursor) unchanged; and whenever the cursor does
change, it is set to an index that is an exact match or a containing
segment — i.e. it is mutated only by a successful lookup. -/
theorem C10_frame (s : Spline) (q : ℚ) :
    (s.value q).2.x = s.x ∧ (s.value q).2.y = s.y ∧ (s.value q).2.m = s.m ∧
    (s.value q).2.degree = s.degree ∧ (s.value q).2.length = s.length ∧
    (s.x 0 > q → (s.value q).2 = s) ∧
    (¬ s.x 0 > q → s.x (s.length - 1) < q → (s.value q).2 = s) ∧
    ((s.value q).2.prev_point ≠ s.prev_point → s.MatchAt q ((s.value q).2.prev_point)) := by
  by_cases h1 : s.x 0 > q
  · have hv : (s.value q).2 = s := by
      simp only [Spline.value, if_pos h1]
    rw [hv]
    exact ⟨rfl, rfl, rfl, rfl, rfl, fun _ => rfl, fun _ _ => rfl, fun h => absurd rfl h⟩
  · by_cases h2 : s.x (s.length - 1) < q
    · have hv : (s.value q).2 = s := by
        simp only [Spline.value, if_neg h1, if_pos h2]
      rw [hv]
      exact ⟨rfl, rfl, rfl, rfl, rfl, fun hq => absurd hq h1, fun _ _ => rfl,
        fun h => absurd rfl h⟩
    · have hv : s.value q = s.searchAux q 0 s.length := value_eq_searchAux s q h1 h2
      rcases searchAux_cases s q s.length 0 with hc | ⟨j, hc | hc⟩
      · rw [hv, hc]
        exact ⟨rfl, rfl, rfl, rfl, rfl, fun hq => absurd hq h1, fun _ hq => absurd hq h2,
          fun h => absurd rfl h⟩
      · rw [hv, hc.2]
        exact ⟨rfl, rfl, rfl, rfl, rfl, fun hq => absurd hq h1, fun _ hq => absurd hq h2,
          fun _ => Or.inl hc.1⟩
      · rw [hv, hc.2.2]
        exact ⟨rfl, rfl, rfl, rfl, rfl, fun hq => absurd hq h1, fun _ hq => absurd hq h2,
          fun _ => Or.inr ⟨hc.1, hc.2.1⟩⟩

/-- Claim C10, witness: the out-of-range query 10 takes the upper
flat-extrapolation branch on the four-point table and leaves the
state — cursor included — unchanged. -/
theorem C10_witness :
    ¬ quadSpline.x 0 > 10 ∧ quadSpline.x (quadSpline.length - 1) < 10 ∧
    (quadSpline.value 10).2 = quadSpline :=
  ⟨by decide, by decide,
    (C10_frame quadSpline 10).2.2.2.2.2.2.1 (by decide) (by decide)⟩

end ArduinoSplines
